import Mathlib

set_option maxRecDepth 100000

/-!
Verification of the DUC validation notebook (`duc-validation.ipynb`).

The notebook's locally-authored logic is:
* `check_label_shapes` — length check raising `ValueError` on mismatch;
* `class IoUMetric` — per-class true-positive / denominator accumulation
  (`reset`, `update`) for mean Intersection-over-Union over 19 classes with
  ignore label 255;
* the `val.lst` builder — pairs images with label files and expands each
  matched pair into 7 crop records.

Floating-point accumulators (`float64`) are modelled by `ℚ`; numpy flat
arrays by lists; the mutable metric object by a state record threaded
explicitly; Python exceptions (`ValueError`, `assert`) by `Except String`.
-/

namespace DUC

/-- Number of semantic classes: `IoUMetric(ignore_label=255, label_num=19)`. -/
def labelNum : ℕ := 19

/-- Ignore sentinel: ground-truth value 255, compared against `int32` labels. -/
def ignoreLabel : ℤ := 255

/-- The `eps = 1e-6` constant inside `IoUMetric.update`. -/
def eps : ℚ := 1 / 1000000

/-- A pixel pair: (arg-max predicted class, ground-truth label).
`pred_label` is an arg-max index, hence `ℕ`; labels are `int32`, hence `ℤ`. -/
abbrev Pix := ℕ × ℤ

/-- `np.logical_and(pred_cur, gt_cur).sum()`: pixels predicted `j` and labeled `j`. -/
def tpCount (j : ℕ) (l : List Pix) : ℕ :=
  l.countP fun q => decide (q.1 = j ∧ q.2 = (j : ℤ))

/-- `np.logical_or(pred_cur, gt_cur).sum()`: pixels predicted `j` or labeled `j`. -/
def orCount (j : ℕ) (l : List Pix) : ℕ :=
  l.countP fun q => decide (q.1 = j ∨ q.2 = (j : ℤ))

/-- `np.logical_and(pred_cur, label.flat == ignore).sum()`:
pixels predicted `j` but labeled with the ignore sentinel. -/
def igCount (j : ℕ) (l : List Pix) : ℕ :=
  l.countP fun q => decide (q.1 = j ∧ q.2 = ignoreLabel)

/-- `denom = logical_or(...).sum() - logical_and(pred_cur, label == ignore).sum()`. -/
def denomCount (j : ℕ) (l : List Pix) : ℤ :=
  (orCount j l : ℤ) - (igCount j l : ℤ)

/-- First index of the maximal entry (numpy/MXNet arg-max returns the first
maximum); `0` on an empty channel vector. -/
def argmaxIdx (xs : List ℚ) : ℕ :=
  match xs with
  | [] => 0
  | x :: rest =>
      (rest.enum.foldl (fun b q => if q.2 > b.2 then (q.1 + 1, q.2) else b) (0, x)).1

/-- `mx.ndarray.argmax_channel(preds[i])`: per-pixel arg-max over the channel
scores, turning a score tensor into a discrete class-label array. -/
def argmaxChannel (scores : List (List ℚ)) : List ℕ :=
  scores.map argmaxIdx

/-- State of the `IoUMetric` object: `self._tp`, `self._denom` (per-class
running totals, indexed by class), and the `sum_metric` / `num_inst` fields
of the inherited `EvalMetric` base holding the latest computed value. -/
structure MetState where
  tp : ℕ → ℚ
  denom : ℕ → ℚ
  sum_metric : ℚ
  num_inst : ℕ

/-- `IoUMetric.reset`: `self._tp = [0.0] * label_num; self._denom = [0.0] * label_num`.
It assigns only the two per-class counter fields. -/
def reset (s : MetState) : MetState :=
  { s with tp := fun _ => 0, denom := fun _ => 0 }

/-- Modelled from the spec: the metric object at construction ("accumulator
state is created at metric construction"); the `sum_metric` / `num_inst`
fields come from the external `mx.metric.EvalMetric` base class, absent from
the repository, with no computed mean yet. -/
def initState : MetState :=
  { tp := fun _ => 0, denom := fun _ => 0, sum_metric := 0, num_inst := 0 }

/-- Modelled from the spec: `get()` "returns the name and the latest computed
mean value" — the stored mean (`sum_metric / num_inst` of the external
`EvalMetric` base, absent from the repository), and `0` when no mean has been
computed yet. Only the value component (`metric.get()[1]`) is modelled. -/
def get (s : MetState) : ℚ :=
  if s.num_inst = 0 then 0 else s.sum_metric / (s.num_inst : ℚ)

/-- The effect of one iteration of the per-sample loop body of
`IoUMetric.update` on the metric state (the per-class `j`-loop plus the
`iou` computation): for each class `j` the sample's `tp` and `denom` are
added to the running totals, and `iou` is recomputed from the updated
running totals as `sum_j tp[j] / (denom[j] + eps) / label_num`, stored via
`self.sum_metric = iou; self.num_inst = 1`. -/
def applySample (s : MetState) (pl : List ℕ) (ll : List ℤ) : MetState :=
  let tp1 : ℕ → ℚ := fun j =>
    if j < labelNum then s.tp j + (tpCount j (pl.zip ll) : ℚ) else s.tp j
  let den1 : ℕ → ℚ := fun j =>
    if j < labelNum then s.denom j + ((denomCount j (pl.zip ll) : ℤ) : ℚ) else s.denom j
  { tp := tp1
    denom := den1
    sum_metric := (((List.range labelNum).map fun j => tp1 j / (den1 j + eps)).sum) / (labelNum : ℚ)
    num_inst := 1 }

/-- The `assert tp <= denom` checks of the per-class loop, gathered over all
classes of one sample. -/
def assertOk (pl : List ℕ) (ll : List ℤ) : Bool :=
  (List.range labelNum).all fun j =>
    decide ((tpCount j (pl.zip ll) : ℤ) ≤ denomCount j (pl.zip ll))

/-- One iteration of `for i in range(len(labels))` in `IoUMetric.update`:
derive `pred_label` by arg-max, re-check shapes per sample
(`check_label_shapes(label, pred_label)`, a length comparison), run the
per-class loop with its assertions, and store the new running state. -/
def updateSample (s : MetState) (ll : List ℤ) (pred : List (List ℚ)) :
    Except String MetState :=
  let pl := argmaxChannel pred
  if ll.length ≠ pl.length then
    .error ("Shape of labels does not match shape of predictions")
  else if assertOk pl ll then
    .ok (applySample s pl ll)
  else
    .error ("AssertionError: tp <= denom")

/-- The per-sample loop of `IoUMetric.update`, over the aligned
(label, prediction) pairs of one batch. -/
def updateSamples : MetState → List (List ℤ × List (List ℚ)) → Except String MetState
  | s, [] => .ok s
  | s, sm :: rest =>
      match updateSample s sm.1 sm.2 with
      | .error e => .error e
      | .ok s1 => updateSamples s1 rest

/-- `IoUMetric.update(labels, preds)`: the batch-level
`check_label_shapes(labels, preds)` (a length comparison of the two lists),
then the per-sample loop. -/
def update (s : MetState) (labels : List (List ℤ)) (preds : List (List (List ℚ))) :
    Except String MetState :=
  if labels.length ≠ preds.length then
    .error ("Shape of labels does not match shape of predictions")
  else
    updateSamples s (labels.zip preds)

/-- A batch as passed to `metric.update`: the list of label arrays and the
list of prediction score tensors. -/
abbrev Batch := List (List ℤ) × List (List (List ℚ))

/-- The driver loop's sequence of `metric.update` calls over the batches. -/
def runUpdates : MetState → List Batch → Except String MetState
  | s, [] => .ok s
  | s, b :: rest =>
      match update s b.1 b.2 with
      | .error e => .error e
      | .ok s1 => runUpdates s1 rest

/-- All aligned (label, prediction) sample pairs of a batch sequence. -/
def flatSamples (bs : List Batch) : List (List ℤ × List (List ℚ)) :=
  bs.flatMap fun b => b.1.zip b.2

/-- A sample's true-positive count for class `j`, after arg-max derivation. -/
def smTp (j : ℕ) (sm : List ℤ × List (List ℚ)) : ℕ :=
  tpCount j ((argmaxChannel sm.2).zip sm.1)

/-- A sample's denominator for class `j`, after arg-max derivation. -/
def smDen (j : ℕ) (sm : List ℤ × List (List ℚ)) : ℤ :=
  denomCount j ((argmaxChannel sm.2).zip sm.1)

/-- Count of pixels that are in the predicted-or-labeled-`j` union and are not
labeled with the ignore sentinel: the net content of the `denom` expression. -/
def keepCount (j : ℕ) (l : List Pix) : ℕ :=
  l.countP fun q => decide ((q.1 = j ∨ q.2 = (j : ℤ)) ∧ ¬ q.2 = ignoreLabel)

/-- The mean-IoU expression computed at the end of each sample iteration:
`iou = sum_j tp[j] / (denom[j] + eps) / label_num` over the running totals. -/
def meanIoU (s : MetState) : ℚ :=
  (((List.range labelNum).map fun j => s.tp j / (s.denom j + eps)).sum) / (labelNum : ℚ)

/-- Sum of per-sample true positives of class `j` over a sample list. -/
def tpSum (j : ℕ) (l : List (List ℤ × List (List ℚ))) : ℚ :=
  (l.map fun sm => (smTp j sm : ℚ)).sum

/-- Sum of per-sample denominators of class `j` over a sample list. -/
def denSum (j : ℕ) (l : List (List ℤ × List (List ℚ))) : ℚ :=
  (l.map fun sm => ((smDen j sm : ℤ) : ℚ)).sum

/-! ### The `val.lst` builder

The notebook's list-building cell globs `data_dir` for images, sorts them,
derives each label path by string substitution
(`p.replace(data_dir, label_dir).replace('leftImg8bit', 'gtFine_labelIds')`),
keeps the pair only when `os.path.isfile(l)`, and for each kept pair appends
7 records `[str(index), p, l, "512", str(256 * i)]` for `i in range(1, 8)`,
finally printing each record tab-joined, one per line, to `val.lst`.

The filesystem is modelled by a boolean oracle `isfile`; the path
substitution by an abstract function `d` (no claim depends on its content).
-/

/-- One line of `val.lst`: `[str(index), image_path, label_path, "512", str(256*i)]`. -/
structure ValRecord where
  idx : String
  img : String
  lbl : String
  width : String
  height : String

/-- The 7 crop records appended for one matched pair:
`for i in range(1, 8): val_lst.append([str(index), p, l, "512", str(256 * i)])`. -/
def recordsFor (i : ℕ) (p l : String) : List ValRecord :=
  (List.range' 1 7).map fun k => ⟨toString i, p, l, "512", toString (256 * k)⟩

/-- Insertion step of the model of Python's `all_images.sort()`. -/
def insertImg : String → List String → List String
  | x, [] => [x]
  | x, y :: ys => if x < y then x :: y :: ys else y :: insertImg x ys

/-- Model of `all_images.sort()` (insertion sort; the claims depend only on
it being a permutation, which `sortImages_perm` provides). -/
def sortImages (l : List String) : List String := l.foldr insertImg []

/-- The glob-and-append loop, threading the mutable `index` counter:
`index` is incremented only for images whose derived label file exists, and
each such image contributes its 7 records. -/
def buildAux (isfile : String → Bool) (d : String → String) : ℕ → List String → List ValRecord
  | _, [] => []
  | idx, p :: ps =>
      if isfile (d p) then recordsFor (idx + 1) p (d p) ++ buildAux isfile d (idx + 1) ps
      else buildAux isfile d idx ps

/-- The whole `val_lst` builder cell: sort the globbed images, then run the
append loop starting from `index = 0`. -/
def buildValLst (isfile : String → Bool) (d : String → String) (images : List String) :
    List ValRecord :=
  buildAux isfile d 0 (sortImages images)

/-- `print('\t'.join(line), file=val_out)`: one tab-joined record plus the
newline appended by `print`. -/
def recordLine (r : ValRecord) : String :=
  String.intercalate ("\t") [r.idx, r.img, r.lbl, r.width, r.height] ++ ("\n")

/-- The writing loop `for line in val_lst: print('\t'.join(line), file=val_out)`. -/
def writeManifest (rs : List ValRecord) : String :=
  rs.foldl (fun acc r => acc ++ recordLine r) ""

/-! ### Concrete inputs used by witnesses and counterexamples -/

/-- A 19-channel score vector whose arg-max channel is class 0. -/
def oneHot0 : List ℚ := 1 :: List.replicate 18 0

/-- A 19-channel score vector whose arg-max channel is class 1. -/
def oneHot1 : List ℚ := 0 :: 1 :: List.replicate 17 0

/-- Metric state after one update on one pixel labeled 0 and predicted 0. -/
def afterOne : MetState := applySample initState (argmaxChannel [oneHot0]) [(0 : ℤ)]

/-- Same state but reached from an explicitly reset metric. -/
def afterPerfect : MetState := applySample (reset initState) (argmaxChannel [oneHot0]) [(0 : ℤ)]

/-- State after two samples (label 0 then label 1) in a single batch. -/
def permA : MetState :=
  applySample (applySample initState (argmaxChannel [oneHot0]) [(0 : ℤ)])
    (argmaxChannel [oneHot1]) [(1 : ℤ)]

/-- State after the same two samples presented in the opposite order. -/
def permB : MetState :=
  applySample (applySample initState (argmaxChannel [oneHot1]) [(1 : ℤ)])
    (argmaxChannel [oneHot0]) [(0 : ℤ)]

/-! ### Counting lemmas for one sample -/

lemma tpCount_cons (j : ℕ) (q : Pix) (l : List Pix) :
    tpCount j (q :: l) = tpCount j l + (if q.1 = j ∧ q.2 = (j : ℤ) then 1 else 0) := by
  simp [tpCount, List.countP_cons]

lemma orCount_cons (j : ℕ) (q : Pix) (l : List Pix) :
    orCount j (q :: l) = orCount j l + (if q.1 = j ∨ q.2 = (j : ℤ) then 1 else 0) := by
  simp [orCount, List.countP_cons]

lemma igCount_cons (j : ℕ) (q : Pix) (l : List Pix) :
    igCount j (q :: l) = igCount j l + (if q.1 = j ∧ q.2 = ignoreLabel then 1 else 0) := by
  simp [igCount, List.countP_cons]

lemma tpCount_le_denomCount (j : ℕ) (hj : (j : ℤ) ≠ ignoreLabel) (l : List Pix) :
    (tpCount j l : ℤ) ≤ denomCount j l := by
  induction l with
  | nil => simp [tpCount, denomCount, orCount, igCount]
  | cons q l ih =>
    simp only [denomCount] at *
    rw [tpCount_cons, orCount_cons, igCount_cons]
    by_cases h1 : q.1 = j <;> by_cases h2 : q.2 = (j : ℤ) <;>
      by_cases h3 : q.2 = ignoreLabel <;>
      · first
        | (exfalso; rw [h2] at h3; exact hj h3)
        | (simp only [h1, h2, h3, if_pos, if_neg, and_self, and_true, and_false,
            true_and, false_and, or_true, or_false, true_or, false_or, if_true, if_false,
            not_true, not_false_iff, ite_true, ite_false] <;> push_cast <;> omega)

lemma denomCount_nonneg (j : ℕ) (hj : (j : ℤ) ≠ ignoreLabel) (l : List Pix) :
    0 ≤ denomCount j l :=
  le_trans (by positivity) (tpCount_le_denomCount j hj l)

lemma keepCount_cons (j : ℕ) (q : Pix) (l : List Pix) :
    keepCount j (q :: l) = keepCount j l +
      (if (q.1 = j ∨ q.2 = (j : ℤ)) ∧ ¬ q.2 = ignoreLabel then 1 else 0) := by
  simp [keepCount, List.countP_cons]

lemma denomCount_eq_nonIgnore (j : ℕ) (hj : (j : ℤ) ≠ ignoreLabel) (l : List Pix) :
    denomCount j l = (keepCount j l : ℤ) := by
  induction l with
  | nil => simp [denomCount, orCount, igCount, keepCount]
  | cons q l ih =>
    simp only [denomCount] at *
    rw [orCount_cons, igCount_cons, keepCount_cons]
    by_cases h1 : q.1 = j <;> by_cases h2 : q.2 = (j : ℤ) <;>
      by_cases h3 : q.2 = ignoreLabel <;>
      · first
        | (exfalso; rw [h2] at h3; exact hj h3)
        | (simp only [h1, h2, h3, and_self, and_true, and_false, true_and, false_and,
            or_true, or_false, true_or, false_or, not_true, not_false_iff,
            ite_true, ite_false] <;> push_cast <;> omega)

lemma perfect_tp_eq_denom (j : ℕ) (hj : (j : ℤ) ≠ ignoreLabel)
    (l : List Pix) (hp : ∀ q ∈ l, q.2 ≠ ignoreLabel → (q.1 : ℤ) = q.2) :
    (tpCount j l : ℤ) = denomCount j l := by
  induction l with
  | nil => simp [tpCount, denomCount, orCount, igCount]
  | cons q l ih =>
    have hq := hp q (List.mem_cons_self q l)
    have ih2 := ih fun x hx => hp x (List.mem_cons_of_mem q hx)
    simp only [denomCount] at *
    rw [tpCount_cons, orCount_cons, igCount_cons]
    by_cases h3 : q.2 = ignoreLabel
    · have h2 : ¬ q.2 = (j : ℤ) := by rw [h3]; exact fun h => hj h.symm
      by_cases h1 : q.1 = j <;>
        simp only [h1, h2, h3, and_self, and_true, and_false, true_and, false_and,
          or_true, or_false, true_or, false_or, ite_true, ite_false] <;>
        push_cast <;> omega
    · have hq2 := hq h3
      by_cases h1 : q.1 = j
      · have h2 : q.2 = (j : ℤ) := by rw [← hq2, h1]
        simp only [h1, h2, h3, and_self, and_true, true_and, or_self,
          true_or, or_true, ite_true, ite_false] <;> push_cast <;> omega
      · have h2 : ¬ q.2 = (j : ℤ) := by
          intro h
          apply h1
          have : (q.1 : ℤ) = (j : ℤ) := by rw [hq2, h]
          exact_mod_cast this
        simp only [h1, h2, h3, and_self, and_true, and_false, true_and, false_and,
          or_self, or_false, false_or, ite_true, ite_false] <;> push_cast <;> omega

lemma assertOk_true (pl : List ℕ) (ll : List ℤ) : assertOk pl ll = true := by
  simp only [assertOk, List.all_eq_true, List.mem_range, decide_eq_true_eq]
  intro j hj
  apply tpCount_le_denomCount
  simp only [labelNum] at hj
  simp only [ignoreLabel]
  omega

/-! ### Structural lemmas about `update` -/

lemma updateSample_eq (s : MetState) (ll : List ℤ) (pred : List (List ℚ)) :
    updateSample s ll pred =
      if ll.length ≠ (argmaxChannel pred).length then
        .error ("Shape of labels does not match shape of predictions")
      else .ok (applySample s (argmaxChannel pred) ll) := by
  simp [updateSample, assertOk_true]

lemma updateSamples_cons_ok (s : MetState) (a : List ℤ × List (List ℚ))
    (rest : List (List ℤ × List (List ℚ)))
    (h : a.1.length = (argmaxChannel a.2).length) :
    updateSamples s (a :: rest) =
      updateSamples (applySample s (argmaxChannel a.2) a.1) rest := by
  simp only [updateSamples]
  rw [updateSample_eq, if_neg (not_not_intro h)]

lemma updateSamples_cons_err (s : MetState) (a : List ℤ × List (List ℚ))
    (rest : List (List ℤ × List (List ℚ)))
    (h : ¬ a.1.length = (argmaxChannel a.2).length) :
    updateSamples s (a :: rest) =
      .error ("Shape of labels does not match shape of predictions") := by
  simp only [updateSamples]
  rw [updateSample_eq, if_pos h]

lemma updateSamples_append (l1 l2 : List (List ℤ × List (List ℚ))) :
    ∀ s : MetState, updateSamples s (l1 ++ l2) =
      match updateSamples s l1 with
      | .error e => .error e
      | .ok s1 => updateSamples s1 l2 := by
  induction l1 with
  | nil => intro s; rfl
  | cons a l ih =>
    intro s
    by_cases h : a.1.length = (argmaxChannel a.2).length
    · rw [List.cons_append, updateSamples_cons_ok _ _ _ h, updateSamples_cons_ok _ _ _ h, ih]
    · rw [List.cons_append, updateSamples_cons_err _ _ _ h, updateSamples_cons_err _ _ _ h]

lemma update_eq_ok (s : MetState) (labels : List (List ℤ)) (preds : List (List (List ℚ)))
    (h : labels.length = preds.length) :
    update s labels preds = updateSamples s (labels.zip preds) := by
  simp [update, h]

lemma flatSamples_cons (b : Batch) (rest : List Batch) :
    flatSamples (b :: rest) = b.1.zip b.2 ++ flatSamples rest := by
  simp [flatSamples]

/-- A successful driver run is the successful per-sample run over all the
samples of all batches, and every batch passed the batch-level shape check. -/
lemma runUpdates_flatten (bs : List Batch) :
    ∀ s s' : MetState, runUpdates s bs = .ok s' →
      updateSamples s (flatSamples bs) = .ok s' ∧ ∀ b ∈ bs, b.1.length = b.2.length := by
  induction bs with
  | nil =>
    intro s s' h
    replace h : Except.ok (ε := String) s = .ok s' := h
    cases h
    exact ⟨rfl, by simp⟩
  | cons b rest ih =>
    intro s s' h
    replace h : (match update s b.1 b.2 with
      | Except.error e => (Except.error e : Except String MetState)
      | Except.ok s1 => runUpdates s1 rest) = .ok s' := h
    cases hu : update s b.1 b.2 with
    | error e => rw [hu] at h; cases h
    | ok s1 =>
      rw [hu] at h
      replace h : runUpdates s1 rest = .ok s' := h
      have hlen : b.1.length = b.2.length := by
        by_contra hne
        simp [update, hne] at hu
      rw [update_eq_ok _ _ _ hlen] at hu
      obtain ⟨H1, H2⟩ := ih s1 s' h
      refine ⟨?_, ?_⟩
      · rw [flatSamples_cons, updateSamples_append, hu]
        exact H1
      · intro b2 hb2
        rcases List.mem_cons.mp hb2 with hb | hb
        · rw [hb]; exact hlen
        · exact H2 b2 hb

/-! ### The accumulation invariant -/

lemma tpSum_cons (j : ℕ) (a : List ℤ × List (List ℚ)) (l : List (List ℤ × List (List ℚ))) :
    tpSum j (a :: l) = (smTp j a : ℚ) + tpSum j l := by
  simp [tpSum]

lemma denSum_cons (j : ℕ) (a : List ℤ × List (List ℚ)) (l : List (List ℤ × List (List ℚ))) :
    denSum j (a :: l) = ((smDen j a : ℤ) : ℚ) + denSum j l := by
  simp [denSum]

lemma applySample_tp (s : MetState) (pl : List ℕ) (ll : List ℤ) (j : ℕ) (hj : j < labelNum) :
    (applySample s pl ll).tp j = s.tp j + (tpCount j (pl.zip ll) : ℚ) := by
  simp [applySample, hj]

lemma applySample_denom (s : MetState) (pl : List ℕ) (ll : List ℤ) (j : ℕ) (hj : j < labelNum) :
    (applySample s pl ll).denom j = s.denom j + ((denomCount j (pl.zip ll) : ℤ) : ℚ) := by
  simp [applySample, hj]

lemma applySample_tp_frame (s : MetState) (pl : List ℕ) (ll : List ℤ) (j : ℕ)
    (hj : ¬ j < labelNum) : (applySample s pl ll).tp j = s.tp j := by
  simp [applySample, hj]

lemma applySample_denom_frame (s : MetState) (pl : List ℕ) (ll : List ℤ) (j : ℕ)
    (hj : ¬ j < labelNum) : (applySample s pl ll).denom j = s.denom j := by
  simp [applySample, hj]

lemma applySample_sum_metric (s : MetState) (pl : List ℕ) (ll : List ℤ) :
    (applySample s pl ll).sum_metric = meanIoU (applySample s pl ll) := by
  simp [applySample, meanIoU]

/-- The invariant of the per-sample loop: counters accumulate the per-sample
counts; untouched indices are framed; after at least one sample the stored
value is the mean-IoU expression over the (cumulative) updated counters and
`num_inst` is `1`. -/
lemma updateSamples_spec (l : List (List ℤ × List (List ℚ))) :
    ∀ s s' : MetState, updateSamples s l = .ok s' →
      (∀ j, j < labelNum → s'.tp j = s.tp j + tpSum j l ∧ s'.denom j = s.denom j + denSum j l)
      ∧ (∀ j, ¬ j < labelNum → s'.tp j = s.tp j ∧ s'.denom j = s.denom j)
      ∧ (l = [] → s' = s)
      ∧ (l ≠ [] → s'.num_inst = 1 ∧ s'.sum_metric = meanIoU s') := by
  induction l with
  | nil =>
    intro s s' h
    replace h : Except.ok (ε := String) s = .ok s' := h
    cases h
    refine ⟨fun j _ => by simp [tpSum, denSum], fun j _ => ⟨rfl, rfl⟩, fun _ => rfl, fun hne => absurd rfl hne⟩
  | cons a l ih =>
    intro s s' h
    by_cases hlen : a.1.length = (argmaxChannel a.2).length
    · rw [updateSamples_cons_ok _ _ _ hlen] at h
      obtain ⟨H1, H2, H3, H4⟩ := ih _ s' h
      refine ⟨?_, ?_, ?_, ?_⟩
      · intro j hj
        have e1 := (H1 j hj).1
        have e2 := (H1 j hj).2
        rw [applySample_tp _ _ _ _ hj] at e1
        rw [applySample_denom _ _ _ _ hj] at e2
        rw [tpSum_cons, denSum_cons]
        constructor
        · rw [e1]; unfold smTp; ring
        · rw [e2]; unfold smDen; ring
      · intro j hj
        have e1 := (H2 j hj).1
        have e2 := (H2 j hj).2
        rw [applySample_tp_frame _ _ _ _ hj] at e1
        rw [applySample_denom_frame _ _ _ _ hj] at e2
        exact ⟨e1, e2⟩
      · intro hfalse; exact absurd hfalse (List.cons_ne_nil a l)
      · intro _
        by_cases hl : l = []
        · subst hl
          have hs : s' = applySample s (argmaxChannel a.2) a.1 := H3 rfl
          subst hs
          exact ⟨rfl, applySample_sum_metric _ _ _⟩
        · exact H4 hl
    · rw [updateSamples_cons_err _ _ _ hlen] at h
      cases h

lemma classNe_ignore (j : ℕ) (hj : j < labelNum) : (j : ℤ) ≠ ignoreLabel := by
  simp only [labelNum] at hj
  simp only [ignoreLabel]
  omega

lemma update_ok_len (s : MetState) (labels : List (List ℤ)) (preds : List (List (List ℚ)))
    (s' : MetState) (h : update s labels preds = .ok s') : labels.length = preds.length := by
  by_contra hne
  simp [update, hne] at h

lemma zip_ne_nil (labels : List (List ℤ)) (preds : List (List (List ℚ)))
    (hne : labels ≠ []) (hlen : labels.length = preds.length) : labels.zip preds ≠ [] := by
  cases labels with
  | nil => exact absurd rfl hne
  | cons a as =>
    cases preds with
    | nil => simp at hlen
    | cons b bs => simp [List.zip_cons_cons]

/-! ### Error characterization of `update` -/

lemma updateSamples_err_iff (l : List (List ℤ × List (List ℚ))) :
    ∀ s : MetState, (∃ e, updateSamples s l = .error e) ↔
      ∃ sm ∈ l, sm.1.length ≠ (argmaxChannel sm.2).length := by
  induction l with
  | nil =>
    intro s
    constructor
    · rintro ⟨e, h⟩
      replace h : Except.ok (ε := String) s = .error e := h
      cases h
    · rintro ⟨sm, hm, _⟩
      simp at hm
  | cons a l ih =>
    intro s
    by_cases hlen : a.1.length = (argmaxChannel a.2).length
    · rw [updateSamples_cons_ok _ _ _ hlen, ih]
      constructor
      · rintro ⟨sm, hm, hne⟩
        exact ⟨sm, List.mem_cons_of_mem a hm, hne⟩
      · rintro ⟨sm, hm, hne⟩
        rcases List.mem_cons.mp hm with h | h
        · rw [h] at hne
          exact absurd hlen hne
        · exact ⟨sm, h, hne⟩
    · rw [updateSamples_cons_err _ _ _ hlen]
      constructor
      · intro _
        exact ⟨a, List.mem_cons_self a l, hlen⟩
      · intro _
        exact ⟨_, rfl⟩

lemma update_err_iff (s : MetState) (labels : List (List ℤ)) (preds : List (List (List ℚ))) :
    (∃ e, update s labels preds = .error e) ↔
      labels.length ≠ preds.length
      ∨ ∃ sm ∈ labels.zip preds, sm.1.length ≠ (argmaxChannel sm.2).length := by
  by_cases h : labels.length = preds.length
  · rw [update_eq_ok _ _ _ h, updateSamples_err_iff]
    simp [h]
  · constructor
    · intro _
      exact Or.inl h
    · intro _
      exact ⟨("Shape of labels does not match shape of predictions"), by simp [update, h]⟩

/-! ### A sum bound -/

lemma range_map_sum_lt (n : ℕ) (f : ℕ → ℚ) (hn : 0 < n) (h : ∀ j, j < n → f j < 1) :
    ((List.range n).map f).sum < (n : ℚ) := by
  induction n with
  | zero => exact absurd hn (by omega)
  | succ m ih =>
    rw [List.range_succ, List.map_append, List.sum_append]
    simp only [List.map_cons, List.map_nil, List.sum_cons, List.sum_nil, add_zero]
    by_cases hm : 0 < m
    · have h1 := ih hm (fun j hj => h j (by omega))
      have h2 := h m (by omega)
      push_cast
      linarith
    · have hm0 : m = 0 := by omega
      subst hm0
      have h2 := h 0 (by omega)
      simp only [List.range_zero, List.map_nil, List.sum_nil, zero_add]
      push_cast
      linarith

/-! ### Lemmas about the `val.lst` builder -/

lemma buildAux_eq (isfile : String → Bool) (d : String → String) (ps : List String) :
    ∀ idx : ℕ, buildAux isfile d idx ps =
      ((ps.filter fun p => isfile (d p)).enumFrom (idx + 1)).flatMap
        fun q => recordsFor q.1 q.2 (d q.2) := by
  induction ps with
  | nil => intro idx; simp [buildAux]
  | cons p ps ih =>
    intro idx
    by_cases h : isfile (d p) = true
    · rw [show buildAux isfile d idx (p :: ps) =
          recordsFor (idx + 1) p (d p) ++ buildAux isfile d (idx + 1) ps from by
        simp [buildAux, h]]
      rw [@List.filter_cons_of_pos _ (fun p => isfile (d p)) p ps h,
        List.enumFrom_cons, List.flatMap_cons, ih]
    · rw [show buildAux isfile d idx (p :: ps) = buildAux isfile d idx ps from by
        simp [buildAux, h]]
      rw [@List.filter_cons_of_neg _ (fun p => isfile (d p)) p ps h]
      exact ih idx

lemma recordsFor_map_img (i : ℕ) (p l : String) :
    (recordsFor i p l).map ValRecord.img = List.replicate 7 p := by
  simp [recordsFor, List.map_map, Function.comp_def]

lemma enumFrom_flatMap_snd {α β : Type} (g : α → List β) (l : List α) :
    ∀ n : ℕ, (l.enumFrom n).flatMap (fun q => g q.2) = l.flatMap g := by
  induction l with
  | nil => intro n; rfl
  | cons a l ih =>
    intro n
    rw [List.enumFrom_cons, List.flatMap_cons, List.flatMap_cons, ih]

lemma flatMap_replicate_length {α : Type} (l : List α) :
    (l.flatMap fun p => List.replicate 7 p).length = 7 * l.length := by
  induction l with
  | nil => rfl
  | cons a l ih =>
    rw [List.flatMap_cons, List.length_append, List.length_replicate, ih, List.length_cons]
    omega

lemma insertImg_perm (x : String) (l : List String) : (insertImg x l).Perm (x :: l) := by
  induction l with
  | nil => exact List.Perm.refl _
  | cons y ys ih =>
    by_cases h : x < y
    · rw [show insertImg x (y :: ys) = x :: y :: ys from by simp [insertImg, h]]
    · rw [show insertImg x (y :: ys) = y :: insertImg x ys from by simp [insertImg, h]]
      exact (ih.cons y).trans (List.Perm.swap x y ys)

lemma sortImages_perm (l : List String) : (sortImages l).Perm l := by
  induction l with
  | nil => exact List.Perm.refl _
  | cons x xs ih =>
    simp only [sortImages, List.foldr_cons]
    exact (insertImg_perm x _).trans (ih.cons x)

lemma writeManifest_eq_join (rs : List ValRecord) :
    writeManifest rs = String.join (rs.map recordLine) := by
  simp [writeManifest, String.join, List.foldl_map]

/-! ### A perfect-prediction batch -/

lemma perfect_update_spec (s0 : MetState) (labels : List (List ℤ))
    (preds : List (List (List ℚ))) (s' : MetState) (hne : labels ≠ [])
    (hrun : update (reset s0) labels preds = .ok s')
    (hperfect : ∀ sm ∈ labels.zip preds, ∀ q ∈ (argmaxChannel sm.2).zip sm.1,
      q.2 ≠ ignoreLabel → (q.1 : ℤ) = q.2) :
    (∀ j, j < labelNum → s'.tp j = s'.denom j ∧ s'.tp j / (s'.denom j + eps) < 1)
    ∧ get s' = ((List.range labelNum).map
        fun j => s'.denom j / (s'.denom j + eps)).sum / (labelNum : ℚ)
    ∧ get s' < 1 := by
  have hlen := update_ok_len _ _ _ _ hrun
  rw [update_eq_ok _ _ _ hlen] at hrun
  obtain ⟨A, B, C, D⟩ := updateSamples_spec _ _ _ hrun
  obtain ⟨hnum, hsum⟩ := D (zip_ne_nil labels preds hne hlen)
  have htpsum : ∀ j, j < labelNum →
      tpSum j (labels.zip preds) = denSum j (labels.zip preds) := by
    intro j hj
    refine congrArg List.sum (List.map_congr_left ?_)
    intro sm hsm
    have hz : (smTp j sm : ℤ) = smDen j sm := by
      simp only [smTp, smDen]
      exact perfect_tp_eq_denom j (classNe_ignore j hj) _ (hperfect sm hsm)
    exact_mod_cast hz
  have htp : ∀ j, j < labelNum → s'.tp j = s'.denom j := by
    intro j hj
    rw [(A j hj).1, (A j hj).2]
    simp only [reset, zero_add]
    exact htpsum j hj
  have hdnn : ∀ j, j < labelNum → 0 ≤ s'.denom j := by
    intro j hj
    rw [(A j hj).2]
    simp only [reset, zero_add]
    apply List.sum_nonneg
    intro x hx
    simp only [List.mem_map] at hx
    obtain ⟨sm, hsm, rfl⟩ := hx
    have hz := denomCount_nonneg j (classNe_ignore j hj) ((argmaxChannel sm.2).zip sm.1)
    simp only [smDen]
    exact_mod_cast hz
  have heps : (0 : ℚ) < eps := by norm_num [eps]
  have hlt1 : ∀ j, j < labelNum → s'.tp j / (s'.denom j + eps) < 1 := by
    intro j hj
    rw [htp j hj]
    have hpos : 0 < s'.denom j + eps := by linarith [hdnn j hj]
    rw [div_lt_one hpos]
    linarith
  have hget : get s' = meanIoU s' := by
    have h1 : get s' = s'.sum_metric := by simp [get, hnum]
    rw [h1, hsum]
  refine ⟨fun j hj => ⟨htp j hj, hlt1 j hj⟩, ?_, ?_⟩
  · rw [hget]
    show (((List.range labelNum).map fun j => s'.tp j / (s'.denom j + eps)).sum) / (labelNum : ℚ)
      = ((List.range labelNum).map fun j => s'.denom j / (s'.denom j + eps)).sum / (labelNum : ℚ)
    congr 1
    refine congrArg List.sum (List.map_congr_left ?_)
    intro j hjm
    rw [htp j (List.mem_range.mp hjm)]
  · rw [hget]
    show (((List.range labelNum).map fun j => s'.tp j / (s'.denom j + eps)).sum) / (labelNum : ℚ) < 1
    rw [div_lt_one (by norm_num [labelNum])]
    exact range_map_sum_lt labelNum _ (by norm_num [labelNum]) hlt1

/-! ### Concrete evaluations of the one-pixel state -/

lemma afterOne_tp0 : afterOne.tp 0 = 1 := by
  have h : tpCount 0 ((argmaxChannel [oneHot0]).zip [(0 : ℤ)]) = 1 := by decide
  show (if 0 < labelNum then
      initState.tp 0 + ((tpCount 0 ((argmaxChannel [oneHot0]).zip [(0 : ℤ)]) : ℕ) : ℚ)
    else initState.tp 0) = 1
  rw [if_pos (by norm_num [labelNum]), h]
  norm_num [initState]

lemma afterOne_den0 : afterOne.denom 0 = 1 := by
  have h : denomCount 0 ((argmaxChannel [oneHot0]).zip [(0 : ℤ)]) = 1 := by decide
  show (if 0 < labelNum then
      initState.denom 0 + ((denomCount 0 ((argmaxChannel [oneHot0]).zip [(0 : ℤ)]) : ℤ) : ℚ)
    else initState.denom 0) = 1
  rw [if_pos (by norm_num [labelNum]), h]
  norm_num [initState]

lemma afterOne_tp_nonneg (j : ℕ) (hj : j < labelNum) : 0 ≤ afterOne.tp j := by
  show (0 : ℚ) ≤ if j < labelNum then
      initState.tp j + ((tpCount j ((argmaxChannel [oneHot0]).zip [(0 : ℤ)]) : ℕ) : ℚ)
    else initState.tp j
  rw [if_pos hj]
  have h := Nat.cast_nonneg (α := ℚ) (tpCount j ((argmaxChannel [oneHot0]).zip [(0 : ℤ)]))
  simp only [initState]
  linarith

lemma afterOne_den_nonneg (j : ℕ) (hj : j < labelNum) : 0 ≤ afterOne.denom j := by
  show (0 : ℚ) ≤ if j < labelNum then
      initState.denom j + ((denomCount j ((argmaxChannel [oneHot0]).zip [(0 : ℤ)]) : ℤ) : ℚ)
    else initState.denom j
  rw [if_pos hj]
  have h : (0 : ℚ) ≤ ((denomCount j ((argmaxChannel [oneHot0]).zip [(0 : ℤ)]) : ℤ) : ℚ) := by
    exact_mod_cast denomCount_nonneg j (classNe_ignore j hj) _
  simp only [initState]
  linarith

lemma afterOne_sum_pos : 0 < afterOne.sum_metric := by
  have heps : (0 : ℚ) < eps := by norm_num [eps]
  show 0 < (((List.range labelNum).map
      fun j => afterOne.tp j / (afterOne.denom j + eps)).sum) / (labelNum : ℚ)
  apply div_pos ?_ (by norm_num [labelNum])
  have hr : List.range labelNum = 0 :: List.range' 1 18 := by decide
  rw [hr, List.map_cons, List.sum_cons]
  have h0 : 0 < afterOne.tp 0 / (afterOne.denom 0 + eps) := by
    rw [afterOne_tp0, afterOne_den0]
    norm_num [eps]
  have hrest : 0 ≤ ((List.range' 1 18).map
      fun j => afterOne.tp j / (afterOne.denom j + eps)).sum := by
    apply List.sum_nonneg
    intro x hx
    simp only [List.mem_map] at hx
    obtain ⟨j, hj, rfl⟩ := hx
    have hj19 : j < labelNum := by
      have hb := List.mem_range'_1.mp hj
      simp only [labelNum]
      omega
    apply div_nonneg (afterOne_tp_nonneg j hj19)
    linarith [afterOne_den_nonneg j hj19]
  linarith

lemma get_reset_afterOne : get (reset afterOne) = afterOne.sum_metric := by
  have h1 : (reset afterOne).num_inst = 1 := rfl
  have h2 : (reset afterOne).sum_metric = afterOne.sum_metric := rfl
  simp only [get, h1, h2]
  norm_num

/-! ### The claims -/

/-- Claim C1: after a non-empty sequence of `update` calls on non-empty batches
since the last `reset`, `get()` returns the mean over the 19 classes of
`running_tp[j] / (running_denom[j] + 1e-6)`, where the running counters are
the cumulative per-class counts over every sample of every batch processed
since the reset. -/
theorem claim_C1 (s0 : MetState) (bs : List Batch) (s' : MetState)
    (hne : bs ≠ []) (hbne : ∀ b ∈ bs, b.1 ≠ [])
    (hrun : runUpdates (reset s0) bs = .ok s') :
    get s' = ((List.range labelNum).map fun j => s'.tp j / (s'.denom j + eps)).sum / (labelNum : ℚ)
    ∧ ∀ j, j < labelNum →
        s'.tp j = tpSum j (flatSamples bs) ∧ s'.denom j = denSum j (flatSamples bs) := by
  obtain ⟨Hflat, Hlen⟩ := runUpdates_flatten _ _ _ hrun
  obtain ⟨A, B, C, D⟩ := updateSamples_spec _ _ _ Hflat
  have hfne : flatSamples bs ≠ [] := by
    cases bs with
    | nil => exact absurd rfl hne
    | cons b rest =>
      rw [flatSamples_cons]
      have hb1 : b.1 ≠ [] := hbne b (List.mem_cons_self b rest)
      have hl : b.1.length = b.2.length := Hlen b (List.mem_cons_self b rest)
      have hzip := zip_ne_nil b.1 b.2 hb1 hl
      intro hx
      exact hzip (List.append_eq_nil.mp hx).1
  obtain ⟨hnum, hsum⟩ := D hfne
  constructor
  · have h1 : get s' = s'.sum_metric := by simp [get, hnum]
    rw [h1, hsum]
    rfl
  · intro j hj
    refine ⟨?_, ?_⟩
    · rw [(A j hj).1]
      simp [reset]
    · rw [(A j hj).2]
      simp [reset]

/-- Witness for C1 at a concrete one-batch, one-sample, one-pixel run. -/
theorem claim_C1_witness :
    get afterPerfect = ((List.range labelNum).map
        fun j => afterPerfect.tp j / (afterPerfect.denom j + eps)).sum / (labelNum : ℚ)
    ∧ ∀ j, j < labelNum →
        afterPerfect.tp j = tpSum j (flatSamples [([[(0 : ℤ)]], [[oneHot0]])])
        ∧ afterPerfect.denom j = denSum j (flatSamples [([[(0 : ℤ)]], [[oneHot0]])]) :=
  claim_C1 initState [([[(0 : ℤ)]], [[oneHot0]])] afterPerfect (List.cons_ne_nil _ _)
    (by
      intro b hb
      rw [List.mem_singleton] at hb
      subst hb
      exact List.cons_ne_nil _ _)
    rfl

/-- Claim C2: for every sample and every class `j` in `0..18` (ignore label
255), the per-sample true-positive count is at most the per-sample
denominator, so the `assert tp <= denom` in `update` never fails. -/
theorem claim_C2 (pl : List ℕ) (ll : List ℤ) :
    (∀ j, j < labelNum → (tpCount j (pl.zip ll) : ℤ) ≤ denomCount j (pl.zip ll))
    ∧ assertOk pl ll = true :=
  ⟨fun j hj => tpCount_le_denomCount j (classNe_ignore j hj) _, assertOk_true pl ll⟩

/-- Witness for C2 on a concrete prediction/label pair. -/
theorem claim_C2_witness :
    ((tpCount 2 ([(2 : ℕ), 5].zip [(2 : ℤ), 255]) : ℤ)
      ≤ denomCount 2 ([(2 : ℕ), 5].zip [(2 : ℤ), 255]))
    ∧ assertOk [(2 : ℕ), 5] [(2 : ℤ), 255] = true :=
  ⟨(claim_C2 [(2 : ℕ), 5] [(2 : ℤ), 255]).1 2 (by decide),
   (claim_C2 [(2 : ℕ), 5] [(2 : ℤ), 255]).2⟩

/-- Claim C3: `update` fails with the shape-mismatch `ValueError` exactly when
the label and prediction collections differ at one of the two granularities:
the batch-level length check on the two lists, or the per-sample length check
of a ground-truth label array against its derived arg-max prediction-label
array. -/
theorem claim_C3 (s : MetState) (labels : List (List ℤ)) (preds : List (List (List ℚ))) :
    (∃ e, update s labels preds = .error e) ↔
      labels.length ≠ preds.length
      ∨ ∃ sm ∈ labels.zip preds, sm.1.length ≠ (argmaxChannel sm.2).length :=
  update_err_iff s labels preds

/-- Counterexample for C4 as stated: a batch whose arg-max prediction equals
the ground truth on every (non-ignore) pixel, yet the reported mean IoU is
`1000000/19000019`, not `1.0`, and class 1's IoU contribution is not `1.0`
(classes absent from the batch contribute `0`, and the `+ 1e-6` epsilon keeps
even present classes strictly below `1`). -/
theorem claim_C4_cex :
    (∀ q ∈ (argmaxChannel [oneHot0]).zip [(0 : ℤ)], (q.1 : ℤ) = q.2)
    ∧ update (reset initState) [[(0 : ℤ)]] [[oneHot0]] = .ok afterPerfect
    ∧ get afterPerfect ≠ 1
    ∧ afterPerfect.tp 1 / (afterPerfect.denom 1 + eps) ≠ 1 := by
  obtain ⟨hj, hget, hlt⟩ := perfect_update_spec initState [[(0 : ℤ)]] [[oneHot0]] afterPerfect
    (List.cons_ne_nil _ _) rfl (by decide)
  exact ⟨by decide, rfl, ne_of_lt hlt, ne_of_lt (hj 1 (by norm_num [labelNum])).2⟩

/-- Claim C4, amended: if from a reset state the arg-max predictions of a
non-empty batch equal the ground truth on all non-ignore pixels, then every
class's accumulated `tp` equals its accumulated `denom`, every class's IoU
contribution `tp/(denom + 1e-6)` is strictly below `1.0` (it is `0` for a
class absent from the batch), and the reported mean equals the mean of
`denom_j/(denom_j + 1e-6)` and is strictly below `1.0`. -/
theorem claim_C4 (s0 : MetState) (labels : List (List ℤ)) (preds : List (List (List ℚ)))
    (s' : MetState) (hne : labels ≠ [])
    (hrun : update (reset s0) labels preds = .ok s')
    (hperfect : ∀ sm ∈ labels.zip preds, ∀ q ∈ (argmaxChannel sm.2).zip sm.1,
      q.2 ≠ ignoreLabel → (q.1 : ℤ) = q.2) :
    (∀ j, j < labelNum → s'.tp j = s'.denom j ∧ s'.tp j / (s'.denom j + eps) < 1)
    ∧ get s' = ((List.range labelNum).map
        fun j => s'.denom j / (s'.denom j + eps)).sum / (labelNum : ℚ)
    ∧ get s' < 1 :=
  perfect_update_spec s0 labels preds s' hne hrun hperfect

/-- Witness for the amended C4 at the concrete perfect one-pixel batch. -/
theorem claim_C4_witness :
    (∀ j, j < labelNum →
      afterPerfect.tp j = afterPerfect.denom j
      ∧ afterPerfect.tp j / (afterPerfect.denom j + eps) < 1)
    ∧ get afterPerfect = ((List.range labelNum).map
        fun j => afterPerfect.denom j / (afterPerfect.denom j + eps)).sum / (labelNum : ℚ)
    ∧ get afterPerfect < 1 :=
  claim_C4 initState [[(0 : ℤ)]] [[oneHot0]] afterPerfect (List.cons_ne_nil _ _) rfl (by decide)

/-- Claim C5: pixels labeled with the ignore sentinel 255 but predicted as a
class `j` are subtracted from the denominator for `j`: the denominator counts
exactly the union pixels that are not ignore-labeled, and appending such an
ignore pixel leaves the denominator unchanged. -/
theorem claim_C5 (j : ℕ) (hj : j < labelNum) (pl : List ℕ) (ll : List ℤ) :
    denomCount j (pl.zip ll) = (keepCount j (pl.zip ll) : ℤ)
    ∧ ∀ q : Pix, q.1 = j → q.2 = ignoreLabel →
        denomCount j (q :: pl.zip ll) = denomCount j (pl.zip ll) := by
  refine ⟨denomCount_eq_nonIgnore j (classNe_ignore j hj) _, ?_⟩
  intro q hq1 hq2
  simp only [denomCount]
  rw [orCount_cons, igCount_cons]
  have h2 : ¬ q.2 = (j : ℤ) := by
    rw [hq2]
    exact fun h => classNe_ignore j hj h.symm
  simp only [hq1, hq2, h2, and_self, and_true, true_and, true_or, or_false,
    ite_true, ite_false]
  push_cast
  ring

/-- Witness for C5 at class 0 on a concrete pixel list. -/
theorem claim_C5_witness :
    (denomCount 0 ([(0 : ℕ), 3].zip [(255 : ℤ), 3])
      = (keepCount 0 ([(0 : ℕ), 3].zip [(255 : ℤ), 3]) : ℤ))
    ∧ ∀ q : Pix, q.1 = 0 → q.2 = ignoreLabel →
        denomCount 0 (q :: [(0 : ℕ), 3].zip [(255 : ℤ), 3])
          = denomCount 0 ([(0 : ℕ), 3].zip [(255 : ℤ), 3]) :=
  claim_C5 0 (by decide) [(0 : ℕ), 3] [(255 : ℤ), 3]

/-- Claim C6: the sample-list builder keeps exactly the images whose derived
label path exists (a missing label file silently produces no record and no
error), expands each kept pair into exactly 7 records, and so emits exactly
`num_matched_pairs * 7` records. -/
theorem claim_C6 (images : List String) (isfile : String → Bool) (d : String → String) :
    (buildValLst isfile d images).map ValRecord.img
      = ((sortImages images).filter fun p => isfile (d p)).flatMap (fun p => List.replicate 7 p)
    ∧ (buildValLst isfile d images).length
      = 7 * (images.filter fun p => isfile (d p)).length := by
  have hmap : (buildValLst isfile d images).map ValRecord.img
      = ((sortImages images).filter fun p => isfile (d p)).flatMap
          fun p => List.replicate 7 p := by
    simp only [buildValLst]
    rw [buildAux_eq, List.map_flatMap]
    simp only [recordsFor_map_img]
    exact enumFrom_flatMap_snd _ _ _
  refine ⟨hmap, ?_⟩
  rw [← List.length_map (buildValLst isfile d images) ValRecord.img, hmap,
    flatMap_replicate_length,
    ((sortImages_perm images).filter fun p => isfile (d p)).length_eq]

/-- Claim C7, corrected counterexample: the claim as stated predicts that
`get()` right after a `reset()` reports `0`; but after one update whose mean
is `1000000/19000019`, `reset()` leaves the stored value in place and `get()`
still reports that non-zero value. -/
theorem claim_C7_cex :
    update initState [[(0 : ℤ)]] [[oneHot0]] = .ok afterOne
    ∧ get (reset afterOne) ≠ 0 :=
  ⟨rfl, by rw [get_reset_afterOne]; exact afterOne_sum_pos.ne'⟩

/-- Claim C7, amended: `reset()` zeroes the per-class counters, and the value
reported by `get()` after a `reset()` equals the value reported before it —
which is `0` for a freshly constructed metric on which no update has ever
run. -/
theorem claim_C7 :
    (∀ s : MetState, (reset s).tp = (fun _ => (0 : ℚ))
      ∧ (reset s).denom = (fun _ => (0 : ℚ))
      ∧ get (reset s) = get s)
    ∧ get (reset initState) = 0 :=
  ⟨fun s => ⟨rfl, rfl, rfl⟩, by simp [get, reset, initState]⟩

/-- Claim C8: the per-class running totals after a finite set of batches do
not depend on the order of the batches, nor of the samples within them: any
two successful runs over permutations of the same multiset of samples end
with identical `_tp` and `_denom`. -/
theorem claim_C8 (s : MetState) (bs1 bs2 : List Batch) (s1 s2 : MetState)
    (hperm : (flatSamples bs1).Perm (flatSamples bs2))
    (h1 : runUpdates s bs1 = .ok s1) (h2 : runUpdates s bs2 = .ok s2) :
    s1.tp = s2.tp ∧ s1.denom = s2.denom := by
  obtain ⟨H1, _⟩ := runUpdates_flatten _ _ _ h1
  obtain ⟨H2, _⟩ := runUpdates_flatten _ _ _ h2
  obtain ⟨A1, B1, _, _⟩ := updateSamples_spec _ _ _ H1
  obtain ⟨A2, B2, _, _⟩ := updateSamples_spec _ _ _ H2
  have htp : ∀ j : ℕ, tpSum j (flatSamples bs1) = tpSum j (flatSamples bs2) :=
    fun j => List.Perm.sum_eq (hperm.map _)
  have hden : ∀ j : ℕ, denSum j (flatSamples bs1) = denSum j (flatSamples bs2) :=
    fun j => List.Perm.sum_eq (hperm.map _)
  constructor
  · funext j
    by_cases hj : j < labelNum
    · rw [(A1 j hj).1, (A2 j hj).1, htp j]
    · rw [(B1 j hj).1, (B2 j hj).1]
  · funext j
    by_cases hj : j < labelNum
    · rw [(A1 j hj).2, (A2 j hj).2, hden j]
    · rw [(B1 j hj).2, (B2 j hj).2]

/-- Witness for C8: two samples in one batch versus the same two samples as
two swapped batches give identical counters. -/
theorem claim_C8_witness : permA.tp = permB.tp ∧ permA.denom = permB.denom :=
  claim_C8 initState [([[(0 : ℤ)], [(1 : ℤ)]], [[oneHot0], [oneHot1]])]
    [([[(1 : ℤ)]], [[oneHot1]]), ([[(0 : ℤ)]], [[oneHot0]])] permA permB
    (by decide) rfl rfl

/-- Claim C9: the `i`-th matched pair (1-based, in sorted image order) yields
exactly the 7 records `(str(i), image, label, "512", str(256*k))` for
`k = 1..7` in that order, and the manifest writes each record tab-joined, one
per line. -/
theorem claim_C9 (images : List String) (isfile : String → Bool) (d : String → String) :
    buildValLst isfile d images
      = (((sortImages images).filter fun p => isfile (d p)).enumFrom 1).flatMap
          (fun q => (List.range' 1 7).map fun k =>
            ValRecord.mk (toString q.1) q.2 (d q.2) "512" (toString (256 * k)))
    ∧ writeManifest (buildValLst isfile d images)
      = String.join ((buildValLst isfile d images).map recordLine) := by
  constructor
  · simp only [buildValLst]
    rw [buildAux_eq]
    norm_num [recordsFor]
  · exact writeManifest_eq_join _

/-- Claim C10: `reset()` writes only `_tp` and `_denom`; it leaves
`sum_metric` and `num_inst` unchanged, so after any successful update the
value reported by `get()` right after a `reset()` equals the value reported
right before it. -/
theorem claim_C10 (s : MetState) (labels : List (List ℤ)) (preds : List (List (List ℚ)))
    (s' : MetState) (h : update s labels preds = .ok s') :
    (reset s').sum_metric = s'.sum_metric
    ∧ (reset s').num_inst = s'.num_inst
    ∧ get (reset s') = get s' :=
  ⟨rfl, rfl, rfl⟩

/-- Witness for C10 after one concrete update. -/
theorem claim_C10_witness :
    (reset afterOne).sum_metric = afterOne.sum_metric
    ∧ (reset afterOne).num_inst = afterOne.num_inst
    ∧ get (reset afterOne) = get afterOne :=
  claim_C10 initState [[(0 : ℤ)]] [[oneHot0]] afterOne rfl

end DUC
